import Mathlib

/-!
Verification of `crates/editor/src/document_symbols.rs` (document-outline
resolution engine).

Shallow embedding conventions:
* Byte offsets, buffer ids, excerpt ids, wave/task ids and highlight styles are
  `Nat`.  Text anchors and multibuffer anchors are modelled as plain offsets
  (`Anchor::range_in_buffer` only re-wraps the same text anchors with an excerpt
  id, so in this model it is the identity), and `Anchor::cmp(_, &snapshot)` is
  the order on `Nat`.
* Buffer text is a `List Char`; Rust byte indices become character indices.
* The syntax classifier (`BufferSnapshot::chunks`) and the theme lookup
  (`HighlightId::style`) are external collaborators, modelled as a chunk list
  per queried range and a partial map from highlight ids to styles.
* `gpui::Task` values are cancelled when dropped; assigning a new task to
  `Editor::refresh_document_symbols_task` drops (hence cancels) the previous
  one.  The scheduler model below records the currently stored task and lets a
  wave complete only while its task is still the stored one.
-/

namespace DocumentSymbols

/-- `gpui::HighlightStyle`, opaque to this module. -/
abbrev HighlightStyle := Nat

/-- `theme::SyntaxTheme`: resolves a highlight id to a style, if the theme has
one for it (`HighlightId::style` returns an `Option`). -/
abbrev SyntaxTheme := Nat → Option HighlightStyle

/-- One highlight span: a half-open range into the outline item's text together
with a style, as in `Vec<(Range<usize>, HighlightStyle)>`. -/
abbrev Span := (Nat × Nat) × HighlightStyle

/-- `language::OutlineItem`, with anchors modelled as offsets. -/
structure OutlineItem where
  depth : Nat
  range : Nat × Nat
  source_range_for_text : Nat × Nat
  text : List Char
  highlight_ranges : List Span
  name_ranges : List (Nat × Nat)
  body_range : Option (Nat × Nat)
  annotation_range : Option (Nat × Nat)
deriving DecidableEq

/-- One chunk produced by `BufferSnapshot::chunks`: a piece of text and the
optional syntax-highlight id attached to it. -/
structure Chunk where
  text : List Char
  syntax_highlight_id : Option Nat
deriving DecidableEq

/-- `language::BufferSnapshot`: the buffer content plus the external syntax
classifier, which yields the chunk sequence for any queried range. -/
structure Snapshot where
  text : List Char
  chunkList : Nat → Nat → List Chunk

/-- `snapshot.text_for_range(a..b).collect::<String>()`. -/
def textForRange (snap : Snapshot) (a b : Nat) : List Char :=
  (snap.text.drop a).take (b - a)

/-- Whether the first list is a leading segment of the second
(`str::starts_with` on the remaining hay during substring search). -/
def isPre : List Char → List Char → Bool
  | [], _ => true
  | _ :: _, [] => false
  | a :: as, b :: bs => a = b && isPre as bs

/-- `str::find(needle)`: index of the first occurrence of `needle`, if any. -/
def subIdx (needle : List Char) : List Char → Option Nat
  | [] => if isPre needle [] then some 0 else none
  | c :: t => if isPre needle (c :: t) then some 0 else (subIdx needle t).map (· + 1)

/-- Accumulator pass for `str::split_whitespace`. -/
def splitWsAux : List Char → List Char → List (List Char)
  | [], acc => if acc = [] then [] else [acc.reverse]
  | c :: rest, acc =>
    if c.isWhitespace then
      if acc = [] then splitWsAux rest [] else acc.reverse :: splitWsAux rest []
    else splitWsAux rest (c :: acc)

/-- `str::split_whitespace`: whitespace-separated words, no empties. -/
def splitWs (s : List Char) : List (List Char) :=
  splitWsAux s []

/-- `chunk.syntax_highlight_id.and_then(|id| id.style(syntax_theme))`. -/
def chunkStyle (theme : SyntaxTheme) (c : Chunk) : Option HighlightStyle :=
  c.syntax_highlight_id.bind theme

/-- The chunk loop of `highlights_for_range` (source lines 340-358), carrying
the advancing `text_cursor` and `offset`; returns the pushed highlight spans
and the `got_any` flag. -/
def hfrLoop (theme : SyntaxTheme) (buffer_end : Nat) :
    List Chunk → Nat → Nat → List Span × Bool
  | [], _, _ => ([], false)
  | c :: rest, text_cursor, offset =>
    let chunk_len := min c.text.length (buffer_end - offset)
    let head : List Span × Bool :=
      match chunkStyle theme c with
      | some st => ([((text_cursor, text_cursor + chunk_len), st)], true)
      | none => ([], false)
    if buffer_end ≤ offset + chunk_len then head
    else
      let tail := hfrLoop theme buffer_end rest (text_cursor + chunk_len) (offset + chunk_len)
      (head.1 ++ tail.1, head.2 || tail.2)

/-- `highlights_for_range` (source lines 333-361): style spans over
`buffer_start..buffer_end` mapped onto the item text starting at
`text_cursor_start`; `None` when `got_any` stayed false. -/
def highlights_for_range (text_cursor_start buffer_start buffer_end : Nat)
    (snap : Snapshot) (theme : SyntaxTheme) : Option (List Span) :=
  let r := hfrLoop theme buffer_end (snap.chunkList buffer_start buffer_end)
    text_cursor_start buffer_start
  if r.2 then some r.1 else none

/-- Total text length of a chunk list. -/
def chunksLen : List Chunk → Nat
  | [] => 0
  | c :: rest => c.text.length + chunksLen rest

/-- `search_start` of the verbatim phase (source line 268-270):
`selection_start_offset.saturating_sub(name.len()).max(range_start_offset)`. -/
def search_start (name : List Char) (range_start sel : Nat) : Nat :=
  max (sel - name.length) range_start

/-- `search_end` of the verbatim phase (source line 271):
`(selection_start_offset + name.len() * 2).min(range_end_offset)`. -/
def search_end (name : List Char) (range_end sel : Nat) : Nat :=
  min (sel + name.length * 2) range_end

/-- The verbatim phase of `highlights_from_buffer` (source lines 267-289):
search the window around the selection start for the name verbatim and, when
found, read highlights over exactly the located span. -/
def verbatimHighlights (name : List Char) (name_offset_in_text : Nat) (snap : Snapshot)
    (range_start range_end sel : Nat) (theme : SyntaxTheme) : Option (List Span) :=
  let ss := search_start name range_start sel
  let se := search_end name range_end sel
  if ss < se then
    match subIdx name (textForRange snap ss se) with
    | some found_at =>
      highlights_for_range name_offset_in_text (ss + found_at)
        (ss + found_at + name.length) snap theme
    | none => none
  else none

/-- The word-by-word fallback loop of `highlights_from_buffer` (source lines
296-325), carrying `buf_search_from` and `name_search_from`; returns the
accumulated highlights and the `got_any` flag. -/
def wordLoop (snap : Snapshot) (theme : SyntaxTheme) (range_start : Nat)
    (buffer_text name : List Char) (name_offset_in_text : Nat) :
    List (List Char) → Nat → Nat → List Span × Bool
  | [], _, _ => ([], false)
  | word :: rest, bFrom, nFrom =>
    let name_word_start :=
      match subIdx word (name.drop nFrom) with
      | some pos => nFrom + pos
      | none => nFrom
    match subIdx word (buffer_text.drop bFrom) with
    | some found_in_buf =>
      let buf_word_start := range_start + bFrom + found_in_buf
      let buf_word_end := buf_word_start + word.length
      let text_cursor := name_offset_in_text + name_word_start
      let head : List Span × Bool :=
        match highlights_for_range text_cursor buf_word_start buf_word_end snap theme with
        | some whs => (whs, true)
        | none => ([], false)
      let tail := wordLoop snap theme range_start buffer_text name name_offset_in_text
        rest (bFrom + found_in_buf + word.length) (name_word_start + word.length)
      (head.1 ++ tail.1, head.2 || tail.2)
    | none =>
      wordLoop snap theme range_start buffer_text name name_offset_in_text
        rest bFrom (name_word_start + word.length)

/-- The whole fallback phase: run the word loop over the declared range's text,
starting both cursors at 0. -/
def fallbackResult (name : List Char) (name_offset_in_text : Nat) (snap : Snapshot)
    (range_start range_end : Nat) (theme : SyntaxTheme) : List Span × Bool :=
  wordLoop snap theme range_start (textForRange snap range_start range_end) name
    name_offset_in_text (splitWs name) 0 0

/-- `highlights_from_buffer` (source lines 252-328): verbatim phase first, then
the word fallback; `None` for an empty name or when neither phase produced a
highlight. -/
def highlights_from_buffer (name : List Char) (name_offset_in_text : Nat)
    (snap : Snapshot) (range_start range_end sel : Nat) (theme : SyntaxTheme) :
    Option (List Span) :=
  if name = [] then none
  else
    match verbatimHighlights name name_offset_in_text snap range_start range_end sel theme with
    | some result => some result
    | none =>
      let r := fallbackResult name name_offset_in_text snap range_start range_end theme
      if r.2 then some r.1 else none

/-- `apply_syntax_highlights` (source lines 223-244): recompute
`highlight_ranges` for each item from the buffer, keeping the item unchanged
when `highlights_from_buffer` yields nothing. -/
def apply_syntax_highlights (items : List OutlineItem) (snap : Snapshot)
    (theme : SyntaxTheme) : List OutlineItem :=
  items.map (fun item =>
    match highlights_from_buffer item.text 0 snap item.range.1 item.range.2
        item.source_range_for_text.1 theme with
    | some highlights => { item with highlight_ranges := highlights }
    | none => item)

/-- The `symbols.retain` pass of `lsp_symbols_at_cursor` (source lines
131-136): `prev_depth` is updated to the depth of EVERY scanned item, kept or
dropped. -/
def retainDepthAux : Option Nat → List OutlineItem → List OutlineItem
  | _, [] => []
  | prev, item :: rest =>
    let keep := match prev with
      | none => true
      | some d => decide (d < item.depth)
    if keep then item :: retainDepthAux (some item.depth) rest
    else retainDepthAux (some item.depth) rest

/-- The depth pass starting with `prev_depth = None`. -/
def retainDepth (l : List OutlineItem) : List OutlineItem :=
  retainDepthAux none l

/-- Restatement of the depth pass: an item of the containment-filtered list is
kept iff it is the first, or its depth strictly exceeds the depth of the item
immediately before it in that list (whether or not that item was kept). -/
def specAdjacentChain : List OutlineItem → List OutlineItem
  | [] => []
  | x :: xs =>
    x :: (xs.zip ((x :: xs).map OutlineItem.depth)).filterMap
      (fun p => if p.2 < p.1.depth then some p.1 else none)

/-- The depth pass as the claim words it: keep an item iff the chain so far is
empty or its depth strictly exceeds the depth of the most-recently-KEPT item
(the comparison depth does not change on dropped items). -/
def claimKeptChainAux : Option Nat → List OutlineItem → List OutlineItem
  | _, [] => []
  | none, item :: rest => item :: claimKeptChainAux (some item.depth) rest
  | some d, item :: rest =>
    if d < item.depth then item :: claimKeptChainAux (some item.depth) rest
    else claimKeptChainAux (some d) rest

/-- The claim's chain, starting from the empty chain. -/
def claimKeptChain (l : List OutlineItem) : List OutlineItem :=
  claimKeptChainAux none l

/-- Claim side for C5: the verbatim phase "finds" the name, i.e. the search
window is nonempty and the name occurs in it verbatim. -/
def verbatimFound (name : List Char) (snap : Snapshot) (range_start range_end sel : Nat) :
    Bool :=
  let ss := search_start name range_start sel
  let se := search_end name range_end sel
  decide (ss < se) && (subIdx name (textForRange snap ss se)).isSome

/-- Claim side for C5: how many words of the fallback scan are found textually
in the buffer text (same advancing buffer cursor as the source's loop). -/
def matchedWordsAux (buffer_text : List Char) : List (List Char) → Nat → Nat
  | [], _ => 0
  | word :: rest, bFrom =>
    match subIdx word (buffer_text.drop bFrom) with
    | some found_in_buf => 1 + matchedWordsAux buffer_text rest (bFrom + found_in_buf + word.length)
    | none => matchedWordsAux buffer_text rest bFrom

/-- Claim side for C5: textual word matches of the fallback phase over the
declared range. -/
def matchedWords (name : List Char) (snap : Snapshot) (range_start range_end : Nat) : Nat :=
  matchedWordsAux (textForRange snap range_start range_end) (splitWs name) 0

/-- The task stored in `Editor::refresh_document_symbols_task`: a ghost wave id
(the monotone counter `nextTaskId` names spawn order) plus the buffer set the
wave queries after its debounce elapses. -/
structure RefreshTask where
  id : Nat
  buffersToQuery : List Nat
deriving DecidableEq

/-- The slice of `editor::Editor` state this module reads and writes.

* `openBuffers` — ids of the buffers of `self.buffer` (`all_buffers`, and
  `buffer(id)` is membership);
* `lspEnabled` — `lsp_symbols_enabled` per buffer (the settings flag);
* `project` — `self.project`;
* `lsp_document_symbols` — the per-buffer symbol cache;
* `excerptOf` — `excerpt_containing(cursor)` resolved to the excerpt's buffer;
* `snapshots` — each open buffer's current snapshot;
* `theme` — `cx.theme().syntax()`;
* `mode_full` — `self.mode().is_full()`;
* `refreshTask`, `nextTaskId` — `refresh_document_symbols_task` and the ghost
  spawn counter. -/
structure Editor where
  openBuffers : List Nat
  lspEnabled : Nat → Bool
  project : Option Unit
  lsp_document_symbols : Nat → Option (List OutlineItem)
  excerptOf : Nat → Option Nat
  snapshots : Nat → Option Snapshot
  theme : SyntaxTheme
  mode_full : Bool
  refreshTask : Option RefreshTask
  nextTaskId : Nat

/-- `lsp_symbols_at_cursor` (source lines 79-139): resolve the excerpt and
buffer at the cursor, read the cache, select the items whose anchor range
contains the cursor inclusively, then run the depth retain pass. -/
def lsp_symbols_at_cursor (ed : Editor) (cursor : Nat) :
    Option (Nat × List OutlineItem) :=
  match ed.excerptOf cursor with
  | none => none
  | some buffer_id =>
    if ed.openBuffers.contains buffer_id then
      match ed.lsp_document_symbols buffer_id with
      | none => none
      | some all_items =>
        if all_items.isEmpty then none
        else
          let symbols := all_items.filter (fun item =>
            decide (item.range.1 ≤ cursor) && decide (cursor ≤ item.range.2))
          some (buffer_id, retainDepth symbols)
    else none

/-- The three shapes `buffer_outline_items` can return: an already-resolved
item list (`Task::ready`), a spawned LSP fetch that will apply highlights when
it resolves, or the background tree-sitter outline of the snapshot. -/
inductive OutlineTask where
  | readyItems : List OutlineItem → OutlineTask
  | lspFetch : OutlineTask
  | syntaxOutline : OutlineTask
deriving DecidableEq

/-- `buffer_outline_items` (source lines 17-53): missing buffer yields ready
empty; with LSP symbols enabled, a cached NON-empty entry is returned directly,
otherwise a fetch is spawned when a project exists and ready empty is returned
when none does; with LSP symbols disabled, the tree-sitter outline is used. -/
def buffer_outline_items (ed : Editor) (buffer_id : Nat) : OutlineTask :=
  if ed.openBuffers.contains buffer_id then
    if ed.lspEnabled buffer_id then
      match ed.lsp_document_symbols buffer_id with
      | some items =>
        if items.isEmpty then
          match ed.project with
          | some _ => OutlineTask.lspFetch
          | none => OutlineTask.readyItems []
        else OutlineTask.readyItems items
      | none =>
        match ed.project with
        | some _ => OutlineTask.lspFetch
        | none => OutlineTask.readyItems []
    else OutlineTask.syntaxOutline
  else OutlineTask.readyItems []

/-- `itertools::unique_by` keeps the first occurrence of each key. -/
def uniqueFirstAux (seen : List Nat) : List Nat → List Nat
  | [] => []
  | x :: xs =>
    if seen.contains x then uniqueFirstAux seen xs
    else x :: uniqueFirstAux (x :: seen) xs

/-- Deduplicate, keeping first occurrences. -/
def uniqueFirst (l : List Nat) : List Nat :=
  uniqueFirstAux [] l

/-- The wave computation of `refresh_document_symbols` (source lines 158-170):
open buffers filtered by the optional target buffer and the settings flag,
deduplicated keeping first occurrences. -/
def buffersToQueryOf (ed : Editor) (for_buffer : Option Nat) : List Nat :=
  uniqueFirst (ed.openBuffers.filter (fun id =>
    (match for_buffer with
     | none => true
     | some target => decide (target = id)) && ed.lspEnabled id))

/-- `refresh_document_symbols` (source lines 145-218) up to its spawn: compute
the buffer wave and, when it is nonempty, store a fresh task in
`refresh_document_symbols_task` — dropping, and thereby cancelling, whatever
task was stored before.  Early returns (non-full mode, no project, empty wave)
leave the previous task running. -/
def refresh_document_symbols (ed : Editor) (for_buffer : Option Nat) : Editor :=
  if ed.mode_full then
    match ed.project with
    | none => ed
    | some _ =>
      if buffersToQueryOf ed for_buffer = [] then ed
      else
        { ed with refreshTask := some ⟨ed.nextTaskId, buffersToQueryOf ed for_buffer⟩,
                  nextTaskId := ed.nextTaskId + 1 }
  else ed

/-- A single insertion of `HashMap::extend`. -/
def insertSymbol (cache : Nat → Option (List OutlineItem)) (k : Nat)
    (v : List OutlineItem) : Nat → Option (List OutlineItem) :=
  fun b => if b = k then some v else cache b

/-- `editor.lsp_document_symbols.extend(highlighted_results)` (source line
212): sequential inserts, later entries overwriting earlier ones. -/
def extendSymbols (cache : Nat → Option (List OutlineItem))
    (results : List (Nat × List OutlineItem)) : Nat → Option (List OutlineItem) :=
  results.foldl (fun c p => insertSymbol c p.1 p.2) cache

/-- The highlighting pass of the completion closure (source lines 204-211):
items of each fetched buffer get `apply_syntax_highlights` run against that
buffer's snapshot when the buffer is still open. -/
def highlightResults (ed : Editor) (results : List (Nat × List OutlineItem)) :
    List (Nat × List OutlineItem) :=
  results.map (fun p =>
    match ed.snapshots p.1 with
    | some snap => (p.1, apply_syntax_highlights p.2 snap ed.theme)
    | none => p)

/-- The tail of the spawned refresh future (source lines 199-216) reaching the
editor again with the per-buffer fetch results of wave `taskId`.

The results list carries the fetches that RESOLVED; modelled from the spec:
`lsp_store::fetch_document_symbols` is not under src/, and per spec section 7
(a) a fetch that errors or times out yields no result for its buffer and is
surfaced only as a log diagnostic, so a failed fetch contributes no entry here.

The guard `t.id = taskId` does not embed a check in the source's write path —
there is none; the write at line 212 is unconditional.  It embeds gpui's
cancel-on-drop: this closing `editor.update` can only run while the spawned
future still exists, i.e. while `refresh_document_symbols_task` still holds
this very wave's task.  A superseded wave's completion is impossible (`none`),
not "runs and is discarded". -/
def complete_refresh (ed : Editor) (taskId : Nat)
    (results : List (Nat × List OutlineItem)) : Option Editor :=
  match ed.refreshTask with
  | none => none
  | some t =>
    if t.id = taskId then
      some { ed with lsp_document_symbols :=
               extendSymbols ed.lsp_document_symbols (highlightResults ed results) }
    else none

/-- Events of the refresh scheduler: a call to `refresh_document_symbols`, or a
wave's spawned future running to completion with its fetch results. -/
inductive SchedEvent where
  | refreshEvt : Option Nat → SchedEvent
  | completeEvt : Nat → List (Nat × List OutlineItem) → SchedEvent

/-- One scheduler step; completion of a dropped wave is not a step. -/
def schedStep (ed : Editor) : SchedEvent → Option Editor
  | SchedEvent.refreshEvt fb => some (refresh_document_symbols ed fb)
  | SchedEvent.completeEvt tid rs => complete_refresh ed tid rs

/-- Run a sequence of scheduler events. -/
def runTrace : Editor → List SchedEvent → Option Editor
  | ed, [] => some ed
  | ed, e :: es =>
    match schedStep ed e with
    | some ed2 => runTrace ed2 es
    | none => none

/-- Wave `w` has been superseded: a task with a strictly larger id is stored
(or the slot is empty) and every id issued from now on is larger still. -/
def Superseded (ed : Editor) (w : Nat) : Prop :=
  w < ed.nextTaskId ∧ ∀ t, ed.refreshTask = some t → w < t.id

/-! Concrete instances used to evaluate the definitions. -/

/-- A theme that resolves no highlight id. -/
def themeNone : SyntaxTheme := fun _ => none

/-- A theme resolving highlight id 0 to style 7. -/
def themeW : SyntaxTheme := fun i => if i = 0 then some 7 else none

/-- A two-character chunk carrying highlight id 0. -/
def chunkW : Chunk := { text := ['a', 'b'], syntax_highlight_id := some 0 }

/-- Snapshot whose classifier returns the single styled chunk for any range. -/
def snapW : Snapshot := { text := ['a', 'b'], chunkList := fun _ _ => [chunkW] }

/-- Snapshot with text `foo` whose chunks carry no highlight id at all. -/
def snapC5 : Snapshot :=
  { text := ['f', 'o', 'o'],
    chunkList := fun _ _ => [{ text := ['f', 'o', 'o'], syntax_highlight_id := none }] }

/-- The name `foo`. -/
def nameFoo : List Char := ['f', 'o', 'o']

/-- A two-character name. -/
def nameAB : List Char := ['a', 'b']

/-- Base outline item all concrete items below are variations of. -/
def itemBase : OutlineItem :=
  { depth := 0, range := (0, 100), source_range_for_text := (0, 0), text := [],
    highlight_ranges := [], name_ranges := [], body_range := none,
    annotation_range := none }

/-- Item A of the spec's ancestor-filter example: depth 0, range 0..100. -/
def itemA : OutlineItem := itemBase

/-- Item B of the spec's ancestor-filter example: depth 1, range 10..50. -/
def itemB : OutlineItem := { itemBase with depth := 1, range := (10, 50) }

/-- Item C of the spec's ancestor-filter example: depth 1, range 60..90. -/
def itemC : OutlineItem := { itemBase with depth := 1, range := (60, 90) }

/-- Depth-2 item containing offset 30, for the C1 counterexample. -/
def itemD2 : OutlineItem := { itemBase with depth := 2, range := (10, 90) }

/-- Depth-1 item containing offset 30, for the C1 counterexample. -/
def itemD1 : OutlineItem := { itemBase with depth := 1, range := (20, 80) }

/-- Second depth-2 item containing offset 30, for the C1 counterexample. -/
def itemD2b : OutlineItem := { itemBase with depth := 2, range := (25, 70) }

/-- Editor whose buffer 1 caches the spec's `[A, B, C]` example items. -/
def edABC : Editor :=
  { openBuffers := [1], lspEnabled := fun _ => true, project := some (),
    lsp_document_symbols := fun b => if b = 1 then some [itemA, itemB, itemC] else none,
    excerptOf := fun _ => some 1, snapshots := fun _ => none, theme := themeNone,
    mode_full := true, refreshTask := none, nextTaskId := 0 }

/-- Editor whose buffer 1 caches items of depths `[0, 2, 1, 2]`, all of whose
ranges contain offset 30. -/
def edC1 : Editor :=
  { edABC with
    lsp_document_symbols := fun b =>
      if b = 1 then some [itemA, itemD2, itemD1, itemD2b] else none }

/-- Editor whose buffer 1 has a PRESENT but EMPTY cache entry, with a project
available. -/
def edC3 : Editor :=
  { edABC with lsp_document_symbols := fun b => if b = 1 then some [] else none }

/-- Editor with LSP symbols enabled for buffer 1 but NO project context, and an
absent cache entry. -/
def edC6 : Editor :=
  { edABC with project := none, lsp_document_symbols := fun _ => none }

/-- Editor whose cache has no entry for the buffer at any cursor. -/
def edC7 : Editor :=
  { edABC with lsp_document_symbols := fun _ => none }

/-- Scheduler start state: two open LSP-enabled buffers, no wave issued yet. -/
def edSched0 : Editor :=
  { openBuffers := [1, 2], lspEnabled := fun _ => true, project := some (),
    lsp_document_symbols := fun _ => none, excerptOf := fun _ => none,
    snapshots := fun _ => none, theme := themeNone, mode_full := true,
    refreshTask := none, nextTaskId := 0 }

/-- After `refresh_document_symbols(None)`: wave 0 queries buffers 1 and 2. -/
def edSched1 : Editor := refresh_document_symbols edSched0 none

/-- After a second `refresh_document_symbols(Some(2))`: wave 1 queries only
buffer 2, and storing its task drops wave 0's task. -/
def edSched2 : Editor := refresh_document_symbols edSched1 (some 2)

/-- The editor produced by wave 0 completing on `edSched1` with a result for
buffer 2 only (buffer 1's fetch failed, contributing nothing). -/
def edC4b : Editor :=
  (complete_refresh edSched1 0 [(2, [])]).getD edSched1

/-- A superseded-wave witness state: the stored task is wave 1, so wave 0 has
been superseded. -/
def edW : Editor :=
  { edSched0 with refreshTask := some ⟨1, [1]⟩, nextTaskId := 2 }

/-- Items list for the C9 witness. -/
def itemsC9 : List OutlineItem := [itemA]

/-! Helper lemmas. -/

/-- The retain pass, seeded with a previous depth, keeps exactly the elements
whose depth strictly exceeds the depth of the element immediately before them
in the scanned list. -/
lemma retainAux_eq (d : Nat) (xs : List OutlineItem) :
    retainDepthAux (some d) xs =
      (xs.zip (d :: xs.map OutlineItem.depth)).filterMap
        (fun p => if p.2 < p.1.depth then some p.1 else none) := by
  induction xs generalizing d with
  | nil => rfl
  | cons y ys ih =>
    simp only [retainDepthAux, List.map_cons, List.zip_cons_cons, List.filterMap_cons]
    by_cases h : d < y.depth
    · simp [h, ih]
    · simp [h, ih]

/-- The source's retain pass equals the adjacent-strict-increase filter. -/
lemma retainDepth_eq_spec (l : List OutlineItem) : retainDepth l = specAdjacentChain l := by
  cases l with
  | nil => rfl
  | cons x xs =>
    simp only [retainDepth, retainDepthAux, specAdjacentChain, List.map_cons]
    simp only [if_true]
    rw [retainAux_eq]

/-- A nonempty list has `isEmpty = false`. -/
lemma isEmpty_false_of_ne {α : Type} (l : List α) (h : l ≠ []) : l.isEmpty = false := by
  cases l with
  | nil => exact absurd rfl h
  | cons a t => rfl

/-! C1: the ancestor filter. -/

/-- C1 counterexample.  In `edC1`, buffer 1 caches four items of depths
`[0, 2, 1, 2]` whose ranges all contain offset 30.  The code keeps the items
of depths `[0, 2, 2]`: the comparison depth was lowered to 1 by the DROPPED
depth-1 item, so the second depth-2 item passes.  The claim's rule (compare
against the most-recently-KEPT depth, here 2) would keep only `[0, 2]`. -/
theorem C1_counterexample :
    lsp_symbols_at_cursor edC1 30 = some (1, [itemA, itemD2, itemD2b]) ∧
    claimKeptChain ([itemA, itemD2, itemD1, itemD2b].filter (fun item =>
      decide (item.range.1 ≤ 30) && decide (30 ≤ item.range.2))) = [itemA, itemD2] ∧
    ([itemA, itemD2, itemD2b] : List OutlineItem) ≠ [itemA, itemD2] :=
  ⟨rfl, by decide, by decide⟩

/-- C1 (amended): `lsp_symbols_at_cursor` first selects exactly the cached
items whose range contains the cursor inclusively, preserving order, and the
depth pass then keeps an item iff it is the first selected one or its depth
strictly exceeds the depth of the item immediately BEFORE it in the selected
list — kept or not (the comparison depth updates on every scanned item, not
only on kept ones).  The spec's `[A, B, C]` example still yields `[A, B]`. -/
theorem C1_amended_thm (ed : Editor) (bid cursor : Nat) (items : List OutlineItem)
    (hex : ed.excerptOf cursor = some bid)
    (hbuf : ed.openBuffers.contains bid = true)
    (hcache : ed.lsp_document_symbols bid = some items)
    (hne : items ≠ []) :
    lsp_symbols_at_cursor ed cursor =
      some (bid, specAdjacentChain (items.filter (fun item =>
        decide (item.range.1 ≤ cursor) && decide (cursor ≤ item.range.2)))) := by
  have hmem : bid ∈ ed.openBuffers := by simpa using hbuf
  simp [lsp_symbols_at_cursor, hex, hmem, hcache, isEmpty_false_of_ne items hne,
    retainDepth_eq_spec]

/-- C1 witness: the spec's example — items `[A(0, 0..100), B(1, 10..50),
C(1, 60..90)]`, cursor 30 — yields `[A, B]`. -/
theorem C1_amended_witness :
    lsp_symbols_at_cursor edABC 30 = some (1, [itemA, itemB]) :=
  (C1_amended_thm edABC 1 30 [itemA, itemB, itemC] rfl rfl rfl (by decide)).trans
    (by decide)

/-! C3: the synchronous outline request against the cache. -/

/-- C3 counterexample.  In `edC3`, buffer 1's cache entry is PRESENT and equal
to the empty sequence, and a project exists: `buffer_outline_items` spawns a
new LSP fetch instead of returning the cached empty sequence immediately. -/
theorem C3_counterexample :
    edC3.lsp_document_symbols 1 = some [] ∧
    buffer_outline_items edC3 1 = OutlineTask.lspFetch ∧
    OutlineTask.lspFetch ≠ OutlineTask.readyItems [] :=
  ⟨rfl, rfl, by decide⟩

/-- C3 (amended): with LSP symbols enabled, a present NON-empty cache entry is
returned immediately with no fetch; a present-but-empty entry behaves exactly
like an absent one — a fetch is spawned when a project exists, and an empty
result is returned when none does. -/
theorem C3_amended_thm :
    (∀ (ed : Editor) (bid : Nat) (items : List OutlineItem),
      ed.openBuffers.contains bid = true → ed.lspEnabled bid = true →
      ed.lsp_document_symbols bid = some items → items ≠ [] →
      buffer_outline_items ed bid = OutlineTask.readyItems items) ∧
    (∀ (ed : Editor) (bid : Nat),
      ed.openBuffers.contains bid = true → ed.lspEnabled bid = true →
      (ed.lsp_document_symbols bid = none ∨ ed.lsp_document_symbols bid = some []) →
      buffer_outline_items ed bid =
        (match ed.project with
         | some _ => OutlineTask.lspFetch
         | none => OutlineTask.readyItems [])) := by
  constructor
  · intro ed bid items hbuf hen hcache hne
    have hmem : bid ∈ ed.openBuffers := by simpa using hbuf
    simp [buffer_outline_items, hmem, hen, hcache, isEmpty_false_of_ne items hne]
  · intro ed bid hbuf hen hcache
    have hmem : bid ∈ ed.openBuffers := by simpa using hbuf
    rcases hcache with h | h <;> simp [buffer_outline_items, hmem, hen, h]

/-- C3 witness: a present non-empty entry (`edABC`, buffer 1) is returned
directly. -/
theorem C3_amended_witness :
    buffer_outline_items edABC 1 = OutlineTask.readyItems [itemA, itemB, itemC] :=
  C3_amended_thm.1 edABC 1 [itemA, itemB, itemC] rfl rfl rfl (by decide)

/-! C6: no project context. -/

/-- C6 counterexample.  In `edC6`, LSP symbols are enabled for buffer 1 but no
project context exists and the cache is absent: the outline request returns an
EMPTY ready result, not the syntax-derived outline. -/
theorem C6_counterexample :
    edC6.project = none ∧ edC6.lspEnabled 1 = true ∧
    edC6.lsp_document_symbols 1 = none ∧
    buffer_outline_items edC6 1 = OutlineTask.readyItems [] ∧
    OutlineTask.readyItems [] ≠ OutlineTask.syntaxOutline :=
  ⟨rfl, rfl, rfl, rfl, by decide⟩

/-- C6 (amended): with LSP symbols enabled and no project context, the outline
request returns the cached entry when that is non-empty and the EMPTY ready
result otherwise — never the syntax-derived outline (which is used only when
LSP symbols are disabled), and there is no error case in the return type. -/
theorem C6_amended_thm (ed : Editor) (bid : Nat)
    (hbuf : ed.openBuffers.contains bid = true) (hen : ed.lspEnabled bid = true)
    (hp : ed.project = none) :
    buffer_outline_items ed bid =
      OutlineTask.readyItems
        (match ed.lsp_document_symbols bid with
         | some items => if items.isEmpty then [] else items
         | none => []) ∧
    buffer_outline_items ed bid ≠ OutlineTask.syntaxOutline := by
  have hmem : bid ∈ ed.openBuffers := by simpa using hbuf
  cases hcache : ed.lsp_document_symbols bid with
  | none => simp [buffer_outline_items, hmem, hen, hp, hcache]
  | some items =>
    cases hemp : items.isEmpty <;>
      simp [buffer_outline_items, hmem, hen, hp, hcache, hemp]

/-- C6 witness: `edC6` (LSP enabled, no project, absent entry) yields the
empty ready result and not the syntax outline. -/
theorem C6_amended_witness :
    buffer_outline_items edC6 1 = OutlineTask.readyItems [] ∧
    buffer_outline_items edC6 1 ≠ OutlineTask.syntaxOutline := by
  have h := C6_amended_thm edC6 1 rfl rfl rfl
  exact ⟨h.1, h.2⟩

/-! C7: empty or absent cache at the cursor. -/

/-- C7: when the cache entry of the buffer at the cursor is absent or is the
empty sequence, `lsp_symbols_at_cursor` returns `none` — the empty result; the
return type `Option` has no error alternative, so no error is possible. -/
theorem C7_thm (ed : Editor) (cursor : Nat)
    (h : ∀ bid, ed.excerptOf cursor = some bid →
      ed.lsp_document_symbols bid = none ∨ ed.lsp_document_symbols bid = some []) :
    lsp_symbols_at_cursor ed cursor = none := by
  cases hex : ed.excerptOf cursor with
  | none => simp [lsp_symbols_at_cursor, hex]
  | some bid =>
    rcases h bid hex with hc | hc <;> simp [lsp_symbols_at_cursor, hex, hc]

/-- C7 witness: `edC7` has no cache entry for any buffer; at cursor 0 the
result is the empty one. -/
theorem C7_witness : lsp_symbols_at_cursor edC7 0 = none :=
  C7_thm edC7 0 (fun _ _ => Or.inl rfl)

/-! C9: frame property of `apply_syntax_highlights`. -/

/-- C9: `apply_syntax_highlights` preserves list length and, position by
position, every field of every item except possibly `highlight_ranges`; an
item for which `highlights_from_buffer` returns `none` is left entirely
unchanged, keeping its previous `highlight_ranges`. -/
theorem C9_thm (items : List OutlineItem) (snap : Snapshot) (theme : SyntaxTheme)
    (i : Nat) (h : i < items.length) :
    ((apply_syntax_highlights items snap theme)[i]?).isSome = true ∧
    ∀ it0 it1, items[i]? = some it0 →
      (apply_syntax_highlights items snap theme)[i]? = some it1 →
      it1.depth = it0.depth ∧ it1.range = it0.range ∧
      it1.source_range_for_text = it0.source_range_for_text ∧
      it1.text = it0.text ∧ it1.name_ranges = it0.name_ranges ∧
      it1.body_range = it0.body_range ∧ it1.annotation_range = it0.annotation_range ∧
      (highlights_from_buffer it0.text 0 snap it0.range.1 it0.range.2
          it0.source_range_for_text.1 theme = none → it1 = it0) := by
  constructor
  · have hlen : i < (apply_syntax_highlights items snap theme).length := by
      simpa [apply_syntax_highlights] using h
    simp [List.getElem?_eq_getElem hlen]
  · intro it0 it1 h0 h1
    rw [apply_syntax_highlights, List.getElem?_map, h0] at h1
    have h2 := Option.some.inj h1
    cases hh : highlights_from_buffer it0.text 0 snap it0.range.1 it0.range.2
        it0.source_range_for_text.1 theme with
    | none =>
      simp only [hh] at h2
      subst h2
      exact ⟨rfl, rfl, rfl, rfl, rfl, rfl, rfl, fun _ => rfl⟩
    | some hs =>
      simp only [hh] at h2
      subst h2
      exact ⟨rfl, rfl, rfl, rfl, rfl, rfl, rfl, fun hcontra => by cases hcontra⟩

/-- C9 witness: at index 0 of `itemsC9` the mapped list is populated. -/
theorem C9_witness :
    ((apply_syntax_highlights itemsC9 snapW themeW)[0]?).isSome = true :=
  (C9_thm itemsC9 snapW themeW 0 (by decide)).1

/-! C8: the verbatim search window. -/

/-- C8: the verbatim phase's window is exactly `selection_start − len(name)`
clamped below to the declared range start, to `selection_start + 2·len(name)`
clamped above to the declared range end (the saturating Nat arithmetic agrees
with the clamp over the integers); the window text is consulted only when the
window start is strictly below its end, the phase fails when the name does not
occur in the window, and an occurrence at `found_at` makes the phase read
highlights over exactly the located span; `highlights_from_buffer` returns the
verbatim phase's result whenever that is a success. -/
theorem C8_thm (name : List Char) (noff : Nat) (snap : Snapshot) (rs re sel : Nat)
    (theme : SyntaxTheme) (hname : name ≠ []) :
    (search_start name rs sel =
       ((max (rs : Int) ((sel : Int) - (name.length : Int))).toNat) ∧
     search_end name re sel =
       ((min (re : Int) ((sel : Int) + 2 * (name.length : Int))).toNat)) ∧
    (¬ search_start name rs sel < search_end name re sel →
      verbatimHighlights name noff snap rs re sel theme = none) ∧
    (subIdx name (textForRange snap (search_start name rs sel)
        (search_end name re sel)) = none →
      verbatimHighlights name noff snap rs re sel theme = none) ∧
    (∀ found_at,
      subIdx name (textForRange snap (search_start name rs sel)
          (search_end name re sel)) = some found_at →
      search_start name rs sel < search_end name re sel →
      verbatimHighlights name noff snap rs re sel theme =
        highlights_for_range noff (search_start name rs sel + found_at)
          (search_start name rs sel + found_at + name.length) snap theme) ∧
    (∀ r, verbatimHighlights name noff snap rs re sel theme = some r →
      highlights_from_buffer name noff snap rs re sel theme = some r) := by
  refine ⟨⟨?_, ?_⟩, ?_, ?_, ?_, ?_⟩
  · unfold search_start; omega
  · unfold search_end; omega
  · intro hlt
    unfold verbatimHighlights
    simp [hlt]
  · intro hnone
    unfold verbatimHighlights
    by_cases hlt : search_start name rs sel < search_end name re sel <;>
      simp [hlt, hnone]
  · intro found_at hfa hlt
    unfold verbatimHighlights
    simp [hlt, hfa]
  · intro r hr
    unfold highlights_from_buffer
    simp [hname, hr]

/-- C8 witness: the Nat window formula agrees with the integer clamp at
name `ab`, range start 2, selection offset 10. -/
theorem C8_witness :
    search_start nameAB 2 10 =
      ((max ((2 : Nat) : Int) (((10 : Nat) : Int) - (nameAB.length : Int))).toNat) :=
  ((C8_thm nameAB 0 snapW 2 30 10 themeW (by decide)).1).1

/-! C5: when `highlights_from_buffer` returns no highlights. -/

/-- C5 counterexample.  Name `foo` over snapshot `snapC5` (text `foo`, chunks
carrying no highlight id): the verbatim phase FINDS the name (window 0..3,
occurrence at 0) and the fallback textually matches its one word, yet the
function returns `none`, because neither occurrence resolves any syntax style.
The claim — `none` only when the name is empty or the verbatim phase found
nothing and zero words matched — is false at this input. -/
theorem C5_counterexample :
    highlights_from_buffer nameFoo 0 snapC5 0 3 0 themeNone = none ∧
    ¬ (nameFoo = [] ∨
        (verbatimFound nameFoo snapC5 0 3 0 = false ∧
         matchedWords nameFoo snapC5 0 3 = 0)) := by
  exact ⟨rfl, by decide⟩

/-- C5 (amended): `highlights_from_buffer` returns `none` iff the name is
empty, or the verbatim phase produced no STYLED highlights and the fallback
produced styled highlights for zero words.  An occurrence that is found
textually but whose span resolves no syntax style contributes nothing, so a
purely textual match can still yield `none`; whenever at least one word (or
the verbatim occurrence) yields a styled chunk, a — possibly sparse —
highlight sequence is returned, and the empty name always yields `none`. -/
theorem C5_amended_thm (name : List Char) (noff : Nat) (snap : Snapshot)
    (rs re sel : Nat) (theme : SyntaxTheme) :
    highlights_from_buffer name noff snap rs re sel theme = none ↔
      (name = [] ∨
        (verbatimHighlights name noff snap rs re sel theme = none ∧
         (fallbackResult name noff snap rs re theme).2 = false)) := by
  unfold highlights_from_buffer
  by_cases hn : name = []
  · simp [hn]
  · cases hv : verbatimHighlights name noff snap rs re sel theme with
    | some r => simp [hn, hv]
    | none =>
      cases hf : (fallbackResult name noff snap rs re theme).2 <;> simp [hn, hv, hf]

/-! Scheduler lemmas. -/

/-- `refresh_document_symbols` either leaves the editor unchanged (early
return) or stores a fresh task with id `nextTaskId` and bumps the counter. -/
lemma refresh_cases (ed : Editor) (fb : Option Nat) :
    refresh_document_symbols ed fb = ed ∨
    ∃ bq, refresh_document_symbols ed fb =
      { ed with refreshTask := some ⟨ed.nextTaskId, bq⟩,
                nextTaskId := ed.nextTaskId + 1 } := by
  unfold refresh_document_symbols
  by_cases hm : ed.mode_full = true
  · rw [if_pos hm]
    cases ed.project with
    | none => exact Or.inl rfl
    | some u =>
      by_cases hq : buffersToQueryOf ed fb = []
      · rw [if_pos hq]; exact Or.inl rfl
      · rw [if_neg hq]; exact Or.inr ⟨_, rfl⟩
  · rw [if_neg hm]; exact Or.inl rfl

/-- A successful completion changes only the symbol cache: the stored task and
the counter stay, and the cache becomes the extend of the highlighted
results. -/
lemma complete_refresh_frame (ed ed2 : Editor) (tid : Nat)
    (rs : List (Nat × List OutlineItem))
    (h : complete_refresh ed tid rs = some ed2) :
    ed2.refreshTask = ed.refreshTask ∧ ed2.nextTaskId = ed.nextTaskId ∧
    ed2.lsp_document_symbols =
      extendSymbols ed.lsp_document_symbols (highlightResults ed rs) := by
  unfold complete_refresh at h
  cases hct : ed.refreshTask with
  | none => simp only [hct] at h; cases h
  | some t =>
    simp only [hct] at h
    by_cases hid : t.id = tid
    · rw [if_pos hid] at h
      have h2 := Option.some.inj h
      subst h2
      exact ⟨rfl, rfl, rfl⟩
    · rw [if_neg hid] at h; cases h

/-- A single step preserves supersededness of a wave. -/
lemma superseded_step (ed ed2 : Editor) (w : Nat) (e : SchedEvent)
    (hs : Superseded ed w) (hstep : schedStep ed e = some ed2) :
    Superseded ed2 w := by
  cases e with
  | refreshEvt fb =>
    have hed : refresh_document_symbols ed fb = ed2 := Option.some.inj hstep
    rcases refresh_cases ed fb with hc | ⟨bq, hc⟩
    · rw [hc] at hed; subst hed; exact hs
    · rw [hc] at hed
      subst hed
      refine ⟨by simp only []; have := hs.1; omega, fun t ht => ?_⟩
      have h2 := Option.some.inj ht
      rw [← h2]
      exact hs.1
  | completeEvt tid rs =>
    have h := complete_refresh_frame ed ed2 tid rs hstep
    exact ⟨by rw [h.2.1]; exact hs.1, fun t ht => hs.2 t (by rw [← h.1]; exact ht)⟩

/-- Supersededness is preserved along any event trace. -/
lemma superseded_trace (w : Nat) (evs : List SchedEvent) :
    ∀ ed ed2 : Editor, Superseded ed w → runTrace ed evs = some ed2 →
      Superseded ed2 w := by
  induction evs with
  | nil =>
    intro ed ed2 hs htr
    cases Option.some.inj htr
    exact hs
  | cons e es ih =>
    intro ed ed2 hs htr
    unfold runTrace at htr
    cases hstep : schedStep ed e with
    | none => rw [hstep] at htr; cases htr
    | some ed1 =>
      rw [hstep] at htr
      exact ih ed1 ed2 (superseded_step ed ed1 w e hs hstep) htr

/-- A superseded wave can never complete: its spawned future was dropped when
the newer wave's task replaced it, so the cache write it would have performed
is impossible. -/
lemma superseded_complete_none (ed : Editor) (w : Nat)
    (rs : List (Nat × List OutlineItem)) (hs : Superseded ed w) :
    complete_refresh ed w rs = none := by
  unfold complete_refresh
  cases hct : ed.refreshTask with
  | none => simp [hct]
  | some t =>
    have hlt : w < t.id := hs.2 t hct
    simp only [hct]
    rw [if_neg (by omega : ¬ t.id = w)]

/-! C2: superseding of fetch waves. -/

/-- C2 counterexample.  From `edSched0`, `refresh(None)` issues wave 0 querying
buffers 1 and 2; a second `refresh(Some 2)` issues wave 1 querying ONLY buffer
2 and, by storing its task, drops wave 0's task.  Wave 0 — still the latest
issued wave that fetched buffer 1 — can then never complete at all: its
late-arriving result for buffer 1 never reaches any cache-write point where a
per-buffer stale check could run, contradicting "a late-arriving result is
checked against the latest issued wave for the buffer and discarded if stale"
(and spec section 5's "not forcible interruption of the in-flight request"):
the in-flight wave IS forcibly cancelled, per editor rather than per buffer. -/
theorem C2_counterexample :
    edSched1.refreshTask = some ⟨0, [1, 2]⟩ ∧
    edSched2.refreshTask = some ⟨1, [2]⟩ ∧
    complete_refresh edSched2 0 [(1, [itemA])] = none :=
  ⟨rfl, rfl, rfl⟩

/-- C2 (amended): only the later wave's result is ever observable, because
issuing a new wave replaces the editor's single pending refresh task, which
cancels the superseded wave outright — after any further event sequence, a
superseded wave's completion step is impossible, so its result can never be
written to the cache.  The write path itself performs no stale-wave check, and
superseding is per editor, not per buffer. -/
theorem C2_amended_thm (ed ed2 : Editor) (w : Nat) (evs : List SchedEvent)
    (rs : List (Nat × List OutlineItem))
    (hsup : Superseded ed w) (htr : runTrace ed evs = some ed2) :
    complete_refresh ed2 w rs = none :=
  superseded_complete_none ed2 w rs (superseded_trace w evs ed ed2 hsup htr)

/-- C2 witness: in `edW` wave 0 is superseded by the stored wave 1, and its
completion is impossible. -/
theorem C2_amended_witness : complete_refresh edW 0 [] = none :=
  C2_amended_thm edW edW 0 [] []
    ⟨by decide, fun t ht => by cases Option.some.inj ht; decide⟩ rfl

/-! C4: failed fetches leave the cache untouched and schedule no retry. -/

/-- Extending a cache with results that never mention key `b` leaves the entry
of `b` unchanged. -/
lemma extendSymbols_not_mem (b : Nat) (rs : List (Nat × List OutlineItem)) :
    ∀ cache : Nat → Option (List OutlineItem),
      (∀ p ∈ rs, p.1 ≠ b) → extendSymbols cache rs b = cache b := by
  induction rs with
  | nil => intro cache _; rfl
  | cons p t ih =>
    intro cache hmem
    have hp : ¬ b = p.1 := fun hh => hmem p (List.mem_cons_self p t) hh.symm
    have ht : ∀ q ∈ t, q.1 ≠ b := fun q hq => hmem q (List.mem_cons_of_mem p hq)
    show extendSymbols (insertSymbol cache p.1 p.2) t b = cache b
    rw [ih _ ht]
    show (if b = p.1 then some p.2 else cache b) = cache b
    rw [if_neg hp]

/-- The highlighting pass keeps each result's buffer key. -/
lemma highlightResults_keys (ed : Editor) (rs : List (Nat × List OutlineItem)) (b : Nat)
    (h : ∀ p ∈ rs, p.1 ≠ b) : ∀ q ∈ highlightResults ed rs, q.1 ≠ b := by
  intro q hq
  unfold highlightResults at hq
  rcases List.mem_map.mp hq with ⟨p, hp, hq2⟩
  cases hsnap : ed.snapshots p.1 with
  | none => rw [hsnap] at hq2; rw [← hq2]; exact h p hp
  | some snap => rw [hsnap] at hq2; rw [← hq2]; exact h p hp

/-- C4: when a wave completes and its results carry no entry for buffer `b`
(a fetch for `b` that errored or timed out contributes no result — modelled
from the spec, see `complete_refresh`), the prior cache entry of `b` is left
unchanged, and the completion neither stores a new task nor advances the wave
counter: no automatic retry is scheduled — only a new
`refresh_document_symbols` call (an edit or server event) issues a fresh
wave. -/
theorem C4_thm (ed ed2 : Editor) (tid : Nat)
    (results : List (Nat × List OutlineItem)) (b : Nat)
    (hstep : complete_refresh ed tid results = some ed2)
    (hfail : ∀ p ∈ results, p.1 ≠ b) :
    ed2.lsp_document_symbols b = ed.lsp_document_symbols b ∧
    ed2.refreshTask = ed.refreshTask ∧ ed2.nextTaskId = ed.nextTaskId := by
  have h := complete_refresh_frame ed ed2 tid results hstep
  refine ⟨?_, h.1, h.2.1⟩
  rw [h.2.2]
  exact extendSymbols_not_mem b (highlightResults ed results)
    ed.lsp_document_symbols (highlightResults_keys ed results b hfail)

/-- C4 witness: wave 0 completes on `edSched1` with a result for buffer 2
only; buffer 1's entry, task slot and counter are untouched. -/
theorem C4_witness :
    edC4b.lsp_document_symbols 1 = edSched1.lsp_document_symbols 1 ∧
    edC4b.refreshTask = edSched1.refreshTask ∧
    edC4b.nextTaskId = edSched1.nextTaskId :=
  C4_thm edSched1 edC4b 0 [(2, [])] 1 rfl (by
    intro p hp
    rw [List.mem_singleton] at hp
    subst hp
    decide)

/-! C10: shape of the spans produced by `highlights_for_range`. -/

/-- Every span the chunk loop pushes starts at or after the current text
cursor and ends within the remaining budget `be - offset`. -/
lemma hfrLoop_bounds (theme : SyntaxTheme) (be : Nat) (chunks : List Chunk) :
    ∀ tc offset : Nat,
      ∀ sp ∈ (hfrLoop theme be chunks tc offset).1,
        tc ≤ sp.1.1 ∧ sp.1.2 ≤ tc + (be - offset) := by
  induction chunks with
  | nil => intro tc offset sp hsp; simp [hfrLoop] at hsp
  | cons c rest ih =>
    intro tc offset sp hsp
    simp only [hfrLoop] at hsp
    set clen := min c.text.length (be - offset) with hclen_def
    have hc1 : clen ≤ be - offset := Nat.min_le_right _ _
    by_cases hbr : be ≤ offset + clen
    · rw [if_pos hbr] at hsp
      cases hst : chunkStyle theme c with
      | none => rw [hst] at hsp; simp at hsp
      | some st =>
        rw [hst] at hsp
        simp only [List.mem_singleton] at hsp
        subst hsp
        exact ⟨le_refl _, by simp only []; omega⟩
    · rw [if_neg hbr] at hsp
      cases hst : chunkStyle theme c with
      | none =>
        rw [hst] at hsp
        simp only [List.nil_append] at hsp
        have hrec := ih (tc + clen) (offset + clen) sp hsp
        exact ⟨by omega, by omega⟩
      | some st =>
        rw [hst] at hsp
        simp only [List.cons_append, List.nil_append, List.mem_cons] at hsp
        rcases hsp with rfl | hsp
        · exact ⟨le_refl _, by simp only []; omega⟩
        · have hrec := ih (tc + clen) (offset + clen) sp hsp
          exact ⟨by omega, by omega⟩

/-- The chunk loop's spans are in nondecreasing start order and pairwise
non-overlapping: each span ends no later than the next begins. -/
lemma hfrLoop_pairwise (theme : SyntaxTheme) (be : Nat) (chunks : List Chunk) :
    ∀ tc offset : Nat,
      List.Pairwise (fun a b : Span => a.1.2 ≤ b.1.1)
        (hfrLoop theme be chunks tc offset).1 := by
  induction chunks with
  | nil => intro tc offset; simp [hfrLoop]
  | cons c rest ih =>
    intro tc offset
    simp only [hfrLoop]
    set clen := min c.text.length (be - offset) with hclen_def
    by_cases hbr : be ≤ offset + clen
    · rw [if_pos hbr]
      cases hst : chunkStyle theme c with
      | none => simp
      | some st => simp
    · rw [if_neg hbr]
      cases hst : chunkStyle theme c with
      | none =>
        simpa using ih (tc + clen) (offset + clen)
      | some st =>
        simp only [List.cons_append, List.nil_append]
        refine List.pairwise_cons.mpr ⟨fun b hb => ?_, ih _ _⟩
        have hrec := hfrLoop_bounds theme be rest (tc + clen) (offset + clen) b hb
        exact hrec.1

/-- A chunk list of total length zero whose chunks are all nonempty is
empty. -/
lemma chunksLen_zero (chunks : List Chunk) (hne : ∀ c ∈ chunks, c.text ≠ [])
    (h0 : chunksLen chunks = 0) : chunks = [] := by
  cases chunks with
  | nil => rfl
  | cons c rest =>
    exfalso
    have hc : c.text ≠ [] := hne c (List.mem_cons_self _ _)
    have hlen : c.text.length ≠ 0 := fun hh => hc (List.length_eq_zero.mp hh)
    simp only [chunksLen] at h0
    omega

/-- When the chunks are nonempty and their total length fits the remaining
budget, the loop's `got_any` flag is false exactly when no chunk resolves a
style. -/
lemma hfrLoop_flag_iff (theme : SyntaxTheme) (be : Nat) (chunks : List Chunk) :
    ∀ tc offset : Nat,
      (∀ c ∈ chunks, c.text ≠ []) →
      chunksLen chunks ≤ be - offset →
      ((hfrLoop theme be chunks tc offset).2 = false ↔
        ∀ c ∈ chunks, chunkStyle theme c = none) := by
  induction chunks with
  | nil => intro tc offset _ _; simp [hfrLoop]
  | cons c rest ih =>
    intro tc offset hne hcov
    have hlen : c.text.length ≠ 0 := by
      have hc := hne c (List.mem_cons_self _ _)
      exact fun hh => hc (List.length_eq_zero.mp hh)
    have hcov2 : c.text.length + chunksLen rest ≤ be - offset := by
      simpa [chunksLen] using hcov
    have hclen : min c.text.length (be - offset) = c.text.length :=
      Nat.min_eq_left (by omega)
    simp only [hfrLoop, hclen]
    by_cases hbr : be ≤ offset + c.text.length
    · rw [if_pos hbr]
      have hrest : rest = [] := by
        refine chunksLen_zero rest (fun q hq => hne q (List.mem_cons_of_mem _ hq)) ?_
        omega
      subst hrest
      cases hst : chunkStyle theme c with
      | none => simp [hst]
      | some st => simp [hst]
    · rw [if_neg hbr]
      have hrec := ih (tc + c.text.length) (offset + c.text.length)
        (fun q hq => hne q (List.mem_cons_of_mem _ hq)) (by omega)
      cases hst : chunkStyle theme c with
      | none => simp [hst, hrec]
      | some st => simp [hst]

/-- C10: given `buffer_start ≤ buffer_end` and the classifier contract that
its chunks are nonempty and cover at most `buffer_end − buffer_start`
characters, every span of `highlights_for_range` lies within
`[text_cursor_start, text_cursor_start + (buffer_end − buffer_start)]`, the
spans are in nondecreasing start order and pairwise non-overlapping (each ends
no later than the next begins), and the result is `none` exactly when no chunk
of the range resolves a highlight style against the theme. -/
theorem C10_thm (tcs bs be : Nat) (snap : Snapshot) (theme : SyntaxTheme)
    (hle : bs ≤ be)
    (hne : ∀ c ∈ snap.chunkList bs be, c.text ≠ [])
    (hcov : chunksLen (snap.chunkList bs be) ≤ be - bs) :
    (∀ sp ∈ (highlights_for_range tcs bs be snap theme).getD [],
      tcs ≤ sp.1.1 ∧ sp.1.2 ≤ tcs + (be - bs)) ∧
    List.Pairwise (fun a b : Span => a.1.2 ≤ b.1.1)
      ((highlights_for_range tcs bs be snap theme).getD []) ∧
    (highlights_for_range tcs bs be snap theme = none ↔
      ∀ c ∈ snap.chunkList bs be, chunkStyle theme c = none) := by
  have hiff := hfrLoop_flag_iff theme be (snap.chunkList bs be) tcs bs hne hcov
  have hbnd := hfrLoop_bounds theme be (snap.chunkList bs be) tcs bs
  have hpw := hfrLoop_pairwise theme be (snap.chunkList bs be) tcs bs
  unfold highlights_for_range
  cases hflag : (hfrLoop theme be (snap.chunkList bs be) tcs bs).2 with
  | false =>
    simp only [hflag, Bool.false_eq_true, if_false, Option.getD_none]
    refine ⟨by intro sp hsp; simp at hsp, by simp, ?_⟩
    simpa using hiff.mp hflag
  | true =>
    simp only [hflag, if_true, Option.getD_some]
    refine ⟨fun sp hsp => hbnd sp hsp, hpw, ?_⟩
    constructor
    · intro hcontra; cases hcontra
    · intro hall
      have hfalse := hiff.mpr hall
      rw [hflag] at hfalse
      cases hfalse

/-- C10 witness: over `snapW` (one styled two-character chunk covering 0..2)
the result is not `none`. -/
theorem C10_witness : highlights_for_range 5 0 2 snapW themeW ≠ none := by
  intro h
  have hnone := (C10_thm 5 0 2 snapW themeW (by decide) (by decide) (by decide)).2.2.mp h
    chunkW (by decide)
  exact absurd hnone (by decide)

end DocumentSymbols
